import Mathlib

/-!
Verification development for the auto-grader backend
(`grading_engine.py` and `main.py`).

The embedding models:
* the per-submission grading engine `grade_submission`
  (`grading_engine.py`), with the external OpenAI oracle abstracted as an
  environment `String → String → Nat → RunOutcome` giving the outcome of
  each run (execution call, evaluation call, JSON parse) for given
  task prompt, user prompt and run index;
* the batch orchestrator `grade_all_submissions_background` and the
  trigger endpoint `start_grading` (`main.py`), with the SQLite store
  modelled as lists of rows and the per-row UPDATE statements as
  id-indexed functional updates.

Numeric scores are modelled as rationals (JSON numbers); Python's
`round(x, 2)` is modelled as round-half-to-even on rationals scaled by
100, and the f-string `{x:.2f}` as a two-decimal formatter.
-/

attribute [local semireducible] Rat.add Rat.mul Rat.inv Rat.sub

/-- One evaluator JSON record, as consumed by the engine: it reads only
the `score` and `feedback` fields, with `result.get('score', 0)` and
`result.get('feedback', '')` defaults, so each field is optional here. -/
structure EvalRecord where
  score : Option ℚ
  feedback : Option String
  deriving DecidableEq

/-- Outcome of one run's oracle round-trip, as seen by the engine's
try-block: the execution call raises, the evaluation call raises,
`json.loads` raises, or a JSON object is parsed. The carried string is
Python's `str(e)` for the raised exception. -/
inductive RunOutcome where
  | execFailure (cause : String)
  | evalFailure (cause : String)
  | parseFailure (cause : String)
  | parsed (rec : EvalRecord)
  deriving DecidableEq

/-- Result record returned by `grade_submission` on success
(`average_score`, `detailed_scores`, `feedback`). -/
structure GradeResult where
  average_score : ℚ
  detailed_scores : List ℚ
  feedback : String
  deriving DecidableEq

/-- How a `grade_submission` call can raise: the typed
`Exception("프롬프트 실행 실패: ...")` re-raised from the per-run handler,
or the `ZeroDivisionError` from `sum(scores) / len(scores)` when the
run loop produced no scores. -/
inductive GradeError where
  | runFailure (msg : String)
  | zeroDivision
  deriving DecidableEq

deriving instance DecidableEq for Except

/-- Round-half-to-even to an integer (Python's `round` tie-breaking). -/
def rhe (q : ℚ) : ℤ :=
  if Int.fract q < 1/2 then ⌊q⌋
  else if 1/2 < Int.fract q then ⌊q⌋ + 1
  else if ⌊q⌋ % 2 = 0 then ⌊q⌋ else ⌊q⌋ + 1

/-- Python's `round(x, 2)`: round to two decimal places. -/
def round2 (q : ℚ) : ℚ := (rhe (q * 100) : ℚ) / 100

/-- Python's f-string `{x:.2f}`: format with exactly two decimals. -/
def fmt2 (q : ℚ) : String :=
  let n : ℤ := rhe (q * 100)
  let sign := if n < 0 then "-" else ""
  let m := n.natAbs
  let r := m % 100
  sign ++ toString (m / 100) ++ "." ++ (if r < 10 then "0" else "") ++ toString r

/-- One iteration of the engine's run loop, given the environment for
this submission's prompts: any of the three raising steps lands in the
`except` handler, which re-raises `Exception("프롬프트 실행 실패: " + str(e))`;
a parsed record yields `(result.get('score', 0), result.get('feedback', ''))`. -/
def runOne (o : Nat → RunOutcome) (run : Nat) : Except String (ℚ × String) :=
  match o run with
  | .execFailure c => .error ("프롬프트 실행 실패: " ++ c)
  | .evalFailure c => .error ("프롬프트 실행 실패: " ++ c)
  | .parseFailure c => .error ("프롬프트 실행 실패: " ++ c)
  | .parsed rec => .ok (rec.score.getD 0, rec.feedback.getD "")

/-- The run loop: execute the given run indices in order, collecting
`(score, feedback)` pairs; the first failing run aborts the whole loop
with its error (fail-fast, as in the source's raise-out-of-loop). -/
def collectRuns (o : Nat → RunOutcome) : List Nat → Except String (List (ℚ × String))
  | [] => .ok []
  | run :: rest =>
    match runOne o run with
    | .error m => .error m
    | .ok p =>
      match collectRuns o rest with
      | .error m => .error m
      | .ok ps => .ok (p :: ps)

/-- Python's `range(n)` for a possibly negative argument: empty when
`n ≤ 0`. -/
def pyRange (n : ℤ) : List Nat := List.range n.toNat

/-- The aggregation step of `grade_submission` (source lines 97-111),
reached only with a non-empty score list: `average_score = sum(scores) /
len(scores)`, the combined feedback header plus the first run's feedback,
and the rounded average in the returned record. -/
def mkGradeResult (scores : List ℚ) (feedbacks : List String) : GradeResult :=
  let average_score : ℚ := scores.sum / (scores.length : ℚ)
  { average_score := round2 average_score
    detailed_scores := scores
    feedback :=
      "평균 점수: " ++ fmt2 average_score ++ "점\n\n" ++
      "각 실행별 점수: " ++
        String.intercalate ", " (scores.map (fun s => fmt2 s ++ "점")) ++ "\n\n" ++
      "종합 피드백:\n" ++ feedbacks.headD "" }

/-- Shallow embedding of `grade_submission(task_prompt, user_prompt,
num_runs)` from `grading_engine.py` (the source's default is
`num_runs = 3`). The oracle environment is passed explicitly. -/
def grade_submission (oracle : String → String → Nat → RunOutcome)
    (task_prompt user_prompt : String) (num_runs : ℤ) :
    Except GradeError GradeResult :=
  match collectRuns (oracle task_prompt user_prompt) (pyRange num_runs) with
  | .error msg => .error (.runFailure msg)
  | .ok pairs =>
    if (pairs.map Prod.fst).length = 0 then .error .zeroDivision
    else .ok (mkGradeResult (pairs.map Prod.fst) (pairs.map Prod.snd))

/-! ## The orchestrator (`main.py`) -/

/-- Status lifecycle of a submission row (`submissions.status`). -/
inductive Status where
  | pending
  | grading
  | completed
  | error
  deriving DecidableEq

/-- One row of the `submissions` table, restricted to the columns the
grading pipeline reads or writes. `assignment_id` joins against the
`assignments` table; `score`, `feedback`, `grading_details` are nullable
(`grading_details` stores the JSON-encoded list of per-run scores). -/
structure Submission where
  id : Nat
  competition_id : Nat
  participant_id : Nat
  assignment_id : Nat
  prompt_text : String
  status : Status
  score : Option ℚ
  feedback : Option String
  grading_details : Option (List ℚ)
  deriving DecidableEq

/-- One row of the `assignments` table (grading reads only `prompt`). -/
structure Assignment where
  id : Nat
  competition_id : Nat
  name : String
  prompt : String
  deriving DecidableEq

/-- One row of the `competitions` table (grading only checks existence). -/
structure Competition where
  id : Nat
  name : String
  description : Option String
  deriving DecidableEq

/-- UPDATE submissions SET ... WHERE id = ?: apply `f` to every row whose
`id` matches (the schema's PRIMARY KEY makes the match unique in any
well-formed store). -/
def updateById (db : List Submission) (i : Nat) (f : Submission → Submission) :
    List Submission :=
  db.map (fun s => if s.id = i then f s else s)

/-- SELECT ... WHERE id = ?: first row with the given id. -/
def findSub (db : List Submission) (i : Nat) : Option Submission :=
  db.find? (fun s => s.id == i)

/-- Status of the row with the given id, if present. -/
def statusOf (db : List Submission) (i : Nat) : Option Status :=
  (findSub db i).map Submission.status

/-- Score column of the row with the given id, if present. -/
def scoreOf (db : List Submission) (i : Nat) : Option (Option ℚ) :=
  (findSub db i).map Submission.score

/-- Feedback column of the row with the given id, if present. -/
def feedbackOf (db : List Submission) (i : Nat) : Option (Option String) :=
  (findSub db i).map Submission.feedback

/-- Grading-details column of the row with the given id, if present. -/
def detailsOf (db : List Submission) (i : Nat) : Option (Option (List ℚ)) :=
  (findSub db i).map Submission.grading_details

/-- Whether an observed status is terminal for a batch pass. -/
def isTerminal : Option Status → Bool
  | some Status.completed => true
  | some Status.error => true
  | _ => false

/-- UPDATE ... SET status = 'grading' WHERE id = ?. -/
def setGrading (s : Submission) : Submission :=
  { s with status := Status.grading }

/-- UPDATE ... SET status = 'completed', score = ?, feedback = ?,
grading_details = ? WHERE id = ? (values from the engine's result). -/
def setCompleted (r : GradeResult) (s : Submission) : Submission :=
  { s with status := Status.completed, score := some r.average_score,
           feedback := some r.feedback,
           grading_details := some r.detailed_scores }

/-- UPDATE ... SET status = 'error', feedback = ? WHERE id = ?: the
feedback diagnostic is built in `main.py` as `f"Grading failed: {str(e)}"`;
score and grading_details are not touched. -/
def setError (msg : String) (s : Submission) : Submission :=
  { s with status := Status.error,
           feedback := some ("Grading failed: " ++ msg) }

/-- Python's `str(e)` for the two ways the engine raises: the re-raised
`Exception(error_msg)` yields its message; `ZeroDivisionError` from
`sum(scores) / len(scores)` prints as "division by zero". -/
def gradeErrorMsg : GradeError → String
  | .runFailure m => m
  | .zeroDivision => "division by zero"

/-- The try/except body of the orchestrator loop for one submission once
its status is 'grading': call the engine (with the source's default
`num_runs = 3`) and build the terminal row update. -/
def terminalUpdate (oracle : String → String → Nat → RunOutcome)
    (assignment_prompt prompt_text : String) (s : Submission) : Submission :=
  match grade_submission oracle assignment_prompt prompt_text 3 with
  | .ok r => setCompleted r s
  | .error e => setError (gradeErrorMsg e) s

/-- One iteration of the orchestrator loop over a snapshot row
`(submission, assignment_prompt)`: commit status='grading', then commit
the terminal update for that submission id. -/
def processSub (oracle : String → String → Nat → RunOutcome)
    (db : List Submission) (row : Submission × String) : List Submission :=
  updateById (updateById db row.1.id setGrading) row.1.id
    (terminalUpdate oracle row.2 row.1.prompt_text)

/-- The snapshot query of `grade_all_submissions_background`:
SELECT s.*, a.prompt FROM submissions s JOIN assignments a ON
s.assignment_id = a.id WHERE s.competition_id = ? AND s.status = 'pending',
in inner-join semantics (one row per matching submission/assignment pair). -/
def snapshotRows (db : List Submission) (assigns : List Assignment)
    (cid : Nat) : List (Submission × String) :=
  (db.filter (fun s => decide (s.competition_id = cid ∧ s.status = Status.pending))).flatMap
    (fun s => (assigns.filter (fun a => a.id == s.assignment_id)).map
      (fun a => (s, a.prompt)))

/-- Shallow embedding of `grade_all_submissions_background(competition_id)`
from `main.py`: snapshot the pending submissions once, then process each
snapshot row in order, committing after each UPDATE. -/
def grade_all_submissions_background (oracle : String → String → Nat → RunOutcome)
    (db : List Submission) (assigns : List Assignment) (cid : Nat) :
    List Submission :=
  (snapshotRows db assigns cid).foldl (processSub oracle) db

/-- The sequence of committed store states produced while the batch loop
runs, excluding the starting state: each snapshot row contributes the
state after its status='grading' commit and the state after its terminal
commit. -/
def passTraceAux (oracle : String → String → Nat → RunOutcome) :
    List (Submission × String) → List Submission → List (List Submission)
  | [], _ => []
  | row :: rest, db =>
    let db1 := updateById db row.1.id setGrading
    let db2 := updateById db1 row.1.id (terminalUpdate oracle row.2 row.1.prompt_text)
    db1 :: db2 :: passTraceAux oracle rest db2

/-- All store states a concurrent poller can observe during one batch
pass, in commit order, starting from the initial store. -/
def passTrace (oracle : String → String → Nat → RunOutcome)
    (db : List Submission) (assigns : List Assignment) (cid : Nat) :
    List (List Submission) :=
  db :: passTraceAux oracle (snapshotRows db assigns cid) db

/-- SELECT COUNT(*) FROM submissions WHERE competition_id = ? AND
status = 'pending'. -/
def pendingCount (db : List Submission) (cid : Nat) : Nat :=
  (db.filter (fun s => decide (s.competition_id = cid ∧ s.status = Status.pending))).length

/-- Response of the `POST /competitions/{id}/grade` endpoint. -/
inductive StartResult where
  | notFound
  | noPending
  | started (count : Nat)
  deriving DecidableEq

/-- Shallow embedding of `start_grading` from `main.py`, together with the
store state after the launched background pass (when one is launched) has
run to completion; when no pass is launched the store is returned as is. -/
def start_grading (oracle : String → String → Nat → RunOutcome)
    (comps : List Competition) (assigns : List Assignment)
    (db : List Submission) (cid : Nat) : StartResult × List Submission :=
  if (comps.find? (fun comp => comp.id == cid)).isNone then (.notFound, db)
  else if pendingCount db cid = 0 then (.noPending, db)
  else (.started (pendingCount db cid),
        grade_all_submissions_background oracle db assigns cid)

/-! ## Concrete test fixtures

Small concrete oracles and store contents used to evaluate the
definitions on explicit inputs. -/

/-- Scores 80, 85, 75 for runs 0, 1, 2 (0 beyond). -/
def wScores : ℕ → ℚ := fun k => [(80:ℚ), 85, 75].getD k 0

/-- Oracle in which every run parses with score 80+85+75 pattern. -/
def wOracle : String → String → Nat → RunOutcome :=
  fun _ _ k => .parsed ⟨some (wScores k), some "좋음"⟩

/-- Oracle whose second run (index 1) raises from the evaluation call
with cause "rate limit exceeded"; other runs succeed with score 80. -/
def wOracleFail : String → String → Nat → RunOutcome :=
  fun _ _ k =>
    if k = 1 then .evalFailure "rate limit exceeded"
    else .parsed ⟨some 80, some "ok"⟩

/-- Oracle returning a well-formed JSON object that is missing every
required field (`{}` parses, but has no score/feedback). -/
def wOracleMissing : String → String → Nat → RunOutcome :=
  fun _ _ _ => .parsed ⟨none, none⟩

/-- Oracle returning a parsed record whose score 150 is outside [0,100]. -/
def wOracleBig : String → String → Nat → RunOutcome :=
  fun _ _ _ => .parsed ⟨some 150, some ""⟩

/-- A pending submission with null score/feedback/details. -/
def wSub : Submission :=
  { id := 1, competition_id := 1, participant_id := 1, assignment_id := 1,
    prompt_text := "Summarize: {text}", status := Status.pending,
    score := none, feedback := none, grading_details := none }

/-- A completed submission (not pending). -/
def wSubDone : Submission :=
  { id := 2, competition_id := 1, participant_id := 1, assignment_id := 1,
    prompt_text := "p", status := Status.completed,
    score := some 80, feedback := some "fb", grading_details := some [80] }

/-- The assignment joined to `wSub`. -/
def wAssign : Assignment :=
  { id := 1, competition_id := 1, name := "hw",
    prompt := "Summarize this text in one sentence" }

/-- The competition row for the fixtures. -/
def wComp : Competition := { id := 1, name := "comp", description := none }

/-- Store with the single pending submission. -/
def wDb : List Submission := [wSub]

/-- Assignment table for the fixtures. -/
def wAssigns : List Assignment := [wAssign]

/-! ## Engine lemmas -/

lemma collectRuns_ok_of (o : Nat → RunOutcome) (g : Nat → ℚ × String)
    (l : List Nat) (h : ∀ k ∈ l, runOne o k = .ok (g k)) :
    collectRuns o l = .ok (l.map g) := by
  induction l with
  | nil => rfl
  | cons a rest ih =>
    have ha := h a (List.mem_cons_self a rest)
    have hrest := ih (fun k hk => h k (List.mem_cons_of_mem a hk))
    simp [collectRuns, ha, hrest]

lemma collectRuns_ok_exists (o : Nat → RunOutcome) (l : List Nat)
    (h : ∀ k ∈ l, ∃ p, runOne o k = .ok p) :
    ∃ ps, collectRuns o l = .ok ps ∧ ps.length = l.length := by
  induction l with
  | nil => exact ⟨[], rfl, rfl⟩
  | cons a rest ih =>
    obtain ⟨p, hp⟩ := h a (List.mem_cons_self a rest)
    obtain ⟨ps, hps, hlen⟩ := ih (fun k hk => h k (List.mem_cons_of_mem a hk))
    exact ⟨p :: ps, by simp [collectRuns, hp, hps], by simp [hlen]⟩

lemma collectRuns_length (o : Nat → RunOutcome) (l : List Nat)
    (ps : List (ℚ × String)) (h : collectRuns o l = .ok ps) :
    ps.length = l.length := by
  induction l generalizing ps with
  | nil => cases h; rfl
  | cons a rest ih =>
    simp only [collectRuns] at h
    cases ha : runOne o a with
    | error m => rw [ha] at h; cases h
    | ok p =>
      rw [ha] at h
      cases hr : collectRuns o rest with
      | error m => rw [hr] at h; cases h
      | ok qs => rw [hr] at h; cases h; simp [ih qs hr]

lemma collectRuns_range'_error (o : Nat → RunOutcome) (j : ℕ) (msg : String)
    (herr : runOne o j = .error msg) :
    ∀ len s, s ≤ j → j < s + len →
      (∀ k, s ≤ k → k < j → ∃ p, runOne o k = .ok p) →
      collectRuns o (List.range' s len) = .error msg := by
  intro len
  induction len with
  | zero => intro s hs hlt _; omega
  | succ d ih =>
    intro s hs hlt hok
    rcases Nat.eq_or_lt_of_le hs with hsj | hsj
    · subst hsj
      simp [List.range', collectRuns, herr]
    · obtain ⟨p, hp⟩ := hok s le_rfl hsj
      have htail := ih (s + 1) hsj (by omega)
        (fun k hk1 hk2 => hok k (by omega) hk2)
      simp [List.range', collectRuns, hp, htail]

lemma collectRuns_first_error (o : Nat → RunOutcome) (j n : ℕ) (msg : String)
    (hj : j < n) (hok : ∀ k < j, ∃ p, runOne o k = .ok p)
    (herr : runOne o j = .error msg) :
    collectRuns o (List.range n) = .error msg := by
  rw [List.range_eq_range']
  exact collectRuns_range'_error o j msg herr n 0 (by omega) (by omega)
    (fun k _ hk => hok k hk)

lemma grade_submission_of_collect_ok (oracle : String → String → Nat → RunOutcome)
    (tp up : String) (m : ℤ) (pairs : List (ℚ × String))
    (hc : collectRuns (oracle tp up) (pyRange m) = .ok pairs)
    (hne : (pairs.map Prod.fst).length ≠ 0) :
    grade_submission oracle tp up m =
      .ok (mkGradeResult (pairs.map Prod.fst) (pairs.map Prod.snd)) := by
  unfold grade_submission
  rw [hc]
  show (if (pairs.map Prod.fst).length = 0 then Except.error GradeError.zeroDivision
        else Except.ok (mkGradeResult (pairs.map Prod.fst) (pairs.map Prod.snd))) = _
  rw [if_neg hne]

lemma grade_submission_ok_inv (oracle : String → String → Nat → RunOutcome)
    (tp up : String) (m : ℤ) (r : GradeResult)
    (h : grade_submission oracle tp up m = .ok r) :
    ∃ pairs, collectRuns (oracle tp up) (pyRange m) = .ok pairs ∧
      (pairs.map Prod.fst).length ≠ 0 ∧
      r = mkGradeResult (pairs.map Prod.fst) (pairs.map Prod.snd) := by
  unfold grade_submission at h
  cases hc : collectRuns (oracle tp up) (pyRange m) with
  | error msg => rw [hc] at h; cases h
  | ok pairs =>
    rw [hc] at h
    replace h : (if (pairs.map Prod.fst).length = 0
        then Except.error GradeError.zeroDivision
        else Except.ok (mkGradeResult (pairs.map Prod.fst) (pairs.map Prod.snd))) =
        Except.ok r := h
    by_cases hl : (pairs.map Prod.fst).length = 0
    · rw [if_pos hl] at h; cases h
    · rw [if_neg hl] at h
      cases h
      exact ⟨pairs, rfl, hl, rfl⟩

lemma pyRange_natCast (n : ℕ) : pyRange (n : ℤ) = List.range n := by
  simp [pyRange]

lemma grade_submission_ok (oracle : String → String → Nat → RunOutcome)
    (tp up : String) (n : ℕ) (hn : 0 < n) (rec : Nat → EvalRecord)
    (h : ∀ k < n, oracle tp up k = RunOutcome.parsed (rec k)) :
    grade_submission oracle tp up (n : ℤ) =
      .ok (mkGradeResult ((List.range n).map (fun k => (rec k).score.getD 0))
            ((List.range n).map (fun k => (rec k).feedback.getD ""))) := by
  have hruns : ∀ k ∈ List.range n,
      runOne (oracle tp up) k =
        .ok ((rec k).score.getD 0, (rec k).feedback.getD "") := by
    intro k hk
    simp [runOne, h k (List.mem_range.mp hk)]
  have hcoll := collectRuns_ok_of (oracle tp up)
    (fun k => ((rec k).score.getD 0, (rec k).feedback.getD "")) _ hruns
  rw [← pyRange_natCast n] at hcoll
  have := grade_submission_of_collect_ok oracle tp up (n : ℤ) _ hcoll
    (by simp [pyRange]; omega)
  rw [this]
  simp [List.map_map, Function.comp_def, pyRange_natCast]

lemma grade_submission_first_fail (oracle : String → String → Nat → RunOutcome)
    (tp up : String) (n j : ℕ) (msg : String) (hj : j < n)
    (hok : ∀ k < j, ∃ p, runOne (oracle tp up) k = .ok p)
    (herr : runOne (oracle tp up) j = .error msg) :
    grade_submission oracle tp up (n : ℤ) = .error (.runFailure msg) := by
  rw [grade_submission, pyRange_natCast,
    collectRuns_first_error _ j n msg hj hok herr]

lemma mkGradeResult_feedback_ne (scores : List ℚ) (feedbacks : List String) :
    (mkGradeResult scores feedbacks).feedback ≠ "" := by
  intro h
  have hlen := congrArg String.length h
  simp only [mkGradeResult, String.length_append] at hlen
  have h1 : String.length "평균 점수: " ≠ 0 := by decide
  have h2 : String.length "점\n\n" ≠ 0 := by decide
  have h3 : String.length "" = 0 := by decide
  omega

lemma grade_submission_ok_feedback (oracle : String → String → Nat → RunOutcome)
    (tp up : String) (m : ℤ) (r : GradeResult)
    (h : grade_submission oracle tp up m = .ok r) : r.feedback ≠ "" := by
  obtain ⟨pairs, _, _, hr⟩ := grade_submission_ok_inv oracle tp up m r h
  rw [hr]
  exact mkGradeResult_feedback_ne _ _

/-! ## Store lemmas -/

lemma setGrading_id (s : Submission) : (setGrading s).id = s.id := rfl

lemma setCompleted_id (r : GradeResult) (s : Submission) :
    (setCompleted r s).id = s.id := rfl

lemma setError_id (m : String) (s : Submission) : (setError m s).id = s.id := rfl

lemma terminalUpdate_id (oracle : String → String → Nat → RunOutcome)
    (ap pt : String) (s : Submission) :
    (terminalUpdate oracle ap pt s).id = s.id := by
  unfold terminalUpdate
  cases grade_submission oracle ap pt 3 <;> rfl

lemma terminalUpdate_status (oracle : String → String → Nat → RunOutcome)
    (ap pt : String) (s : Submission) :
    (terminalUpdate oracle ap pt s).status = Status.completed ∨
      (terminalUpdate oracle ap pt s).status = Status.error := by
  unfold terminalUpdate
  cases grade_submission oracle ap pt 3 with
  | ok r => exact Or.inl rfl
  | error e => exact Or.inr rfl

lemma findSub_updateById_ne (db : List Submission) (i j : Nat)
    (f : Submission → Submission) (hf : ∀ s, (f s).id = s.id) (hij : i ≠ j) :
    findSub (updateById db j f) i = findSub db i := by
  induction db with
  | nil => rfl
  | cons s rest ih =>
    simp only [updateById, List.map_cons] at ih ⊢
    by_cases hs : s.id = j
    · rw [if_pos hs]
      have h1 : ((f s).id == i) = false := by
        simp only [hf s, hs, beq_eq_false_iff_ne]
        exact fun h => hij h.symm
      have h2 : (s.id == i) = false := by
        simp only [hs, beq_eq_false_iff_ne]
        exact fun h => hij h.symm
      simp only [findSub, List.find?_cons, h1, h2] at ih ⊢
      exact ih
    · rw [if_neg hs]
      simp only [findSub, List.find?_cons] at ih ⊢
      cases hsi : (s.id == i) with
      | true => rfl
      | false => exact ih

lemma findSub_updateById_self (db : List Submission) (i : Nat)
    (f : Submission → Submission) (hf : ∀ s, (f s).id = s.id) :
    findSub (updateById db i f) i = (findSub db i).map f := by
  induction db with
  | nil => rfl
  | cons s rest ih =>
    simp only [updateById, List.map_cons] at ih ⊢
    by_cases hs : s.id = i
    · rw [if_pos hs]
      have h1 : ((f s).id == i) = true := by simp [hf s, hs]
      have h2 : (s.id == i) = true := by simp [hs]
      simp only [findSub, List.find?_cons, h1, h2]
      rfl
    · rw [if_neg hs]
      have h2 : (s.id == i) = false := by simp [hs]
      simp only [findSub, List.find?_cons, h2] at ih ⊢
      exact ih

lemma findSub_of_mem (db : List Submission) (s : Submission)
    (hnd : (db.map Submission.id).Nodup) (hs : s ∈ db) :
    findSub db s.id = some s := by
  induction db with
  | nil => cases hs
  | cons t rest ih =>
    simp only [List.map_cons, List.nodup_cons] at hnd
    rcases List.mem_cons.mp hs with rfl | hmem
    · simp [findSub, List.find?_cons]
    · have hne : (t.id == s.id) = false := by
        simp only [beq_eq_false_iff_ne]
        intro h
        exact hnd.1 (h ▸ List.mem_map_of_mem Submission.id hmem)
      simp only [findSub, List.find?_cons, hne]
      exact ih hnd.2 hmem

lemma findSub_processSub_ne (oracle : String → String → Nat → RunOutcome)
    (db : List Submission) (row : Submission × String) (i : Nat)
    (hne : row.1.id ≠ i) :
    findSub (processSub oracle db row) i = findSub db i := by
  unfold processSub
  rw [findSub_updateById_ne _ _ _ _ (terminalUpdate_id oracle row.2 row.1.prompt_text)
      (fun h => hne h.symm),
    findSub_updateById_ne _ _ _ _ setGrading_id (fun h => hne h.symm)]

lemma findSub_processSub_self (oracle : String → String → Nat → RunOutcome)
    (db : List Submission) (row : Submission × String) :
    findSub (processSub oracle db row) row.1.id =
      (findSub db row.1.id).map
        (fun s => terminalUpdate oracle row.2 row.1.prompt_text (setGrading s)) := by
  unfold processSub
  rw [findSub_updateById_self _ _ _ (terminalUpdate_id oracle row.2 row.1.prompt_text),
    findSub_updateById_self _ _ _ setGrading_id, Option.map_map]
  rfl

lemma foldl_processSub_frame (oracle : String → String → Nat → RunOutcome)
    (rows : List (Submission × String)) (db : List Submission) (i : Nat)
    (h : ∀ row ∈ rows, row.1.id ≠ i) :
    findSub (rows.foldl (processSub oracle) db) i = findSub db i := by
  induction rows generalizing db with
  | nil => rfl
  | cons r rest ih =>
    rw [List.foldl_cons,
      ih _ (fun row hrow => h row (List.mem_cons_of_mem r hrow))]
    exact findSub_processSub_ne oracle db r i (h r (List.mem_cons_self r rest))

lemma findSub_foldl_processSub (oracle : String → String → Nat → RunOutcome)
    (rows : List (Submission × String)) (db : List Submission)
    (row : Submission × String)
    (hnd : (rows.map (fun r => r.1.id)).Nodup) (hmem : row ∈ rows) :
    findSub (rows.foldl (processSub oracle) db) row.1.id =
      (findSub db row.1.id).map
        (fun s => terminalUpdate oracle row.2 row.1.prompt_text (setGrading s)) := by
  induction rows generalizing db with
  | nil => cases hmem
  | cons r rest ih =>
    simp only [List.map_cons, List.nodup_cons] at hnd
    rcases List.mem_cons.mp hmem with rfl | hmem'
    · rw [List.foldl_cons,
        foldl_processSub_frame oracle rest _ row.1.id
          (fun q hq h => hnd.1 (h ▸ List.mem_map_of_mem (fun r => r.1.id) hq))]
      exact findSub_processSub_self oracle db row
    · have hne : r.1.id ≠ row.1.id := by
        intro h
        exact hnd.1 (h ▸ List.mem_map_of_mem (fun r => r.1.id) hmem')
      rw [List.foldl_cons, ih _ hnd.2 hmem',
        findSub_processSub_ne oracle db r row.1.id hne]

/-! ## Snapshot lemmas -/

lemma mem_snapshotRows (db : List Submission) (assigns : List Assignment)
    (cid : Nat) (row : Submission × String)
    (h : row ∈ snapshotRows db assigns cid) :
    row.1 ∈ db ∧ row.1.competition_id = cid ∧ row.1.status = Status.pending ∧
      ∃ a ∈ assigns, a.id = row.1.assignment_id ∧ row.2 = a.prompt := by
  obtain ⟨s, hs, hrow⟩ := List.mem_flatMap.mp h
  obtain ⟨a, ha, heq⟩ := List.mem_map.mp hrow
  obtain ⟨hsdb, hcond⟩ := List.mem_filter.mp hs
  obtain ⟨hadb, haid⟩ := List.mem_filter.mp ha
  rw [decide_eq_true_iff] at hcond
  rw [beq_iff_eq] at haid
  cases heq
  exact ⟨hsdb, hcond.1, hcond.2, a, hadb, haid, rfl⟩

lemma filter_assign_length_le (assigns : List Assignment)
    (hand : (assigns.map Assignment.id).Nodup) (x : Nat) :
    (assigns.filter (fun a => a.id == x)).length ≤ 1 := by
  induction assigns with
  | nil => simp
  | cons a rest ih =>
    simp only [List.map_cons, List.nodup_cons] at hand
    by_cases hax : a.id = x
    · have hrest : rest.filter (fun b => b.id == x) = [] := by
        rw [List.filter_eq_nil_iff]
        intro b hb hbeq
        rw [beq_iff_eq] at hbeq
        exact hand.1 (by rw [hax, ← hbeq]; exact List.mem_map_of_mem Assignment.id hb)
      simp [List.filter_cons, hax, hrest]
    · have : (a.id == x) = false := by simp [hax]
      simp only [List.filter_cons, this, Bool.false_eq_true, if_neg (by simp : ¬False)]
      exact ih hand.2

lemma snapshot_ids_sublist (db : List Submission) (assigns : List Assignment)
    (cid : Nat) (hand : (assigns.map Assignment.id).Nodup) :
    List.Sublist ((snapshotRows db assigns cid).map (fun r => r.1.id))
      (db.map Submission.id) := by
  have hstep : ∀ l : List Submission,
      List.Sublist ((l.flatMap (fun s =>
        (assigns.filter (fun a => a.id == s.assignment_id)).map
          (fun a => (s, a.prompt)))).map (fun r => r.1.id))
        (l.map Submission.id) := by
    intro l
    induction l with
    | nil => simp
    | cons s rest ih =>
      simp only [List.flatMap_cons, List.map_cons, List.map_append, List.map_map]
      have hle := filter_assign_length_le assigns hand s.assignment_id
      cases hfl : assigns.filter (fun a => a.id == s.assignment_id) with
      | nil => exact List.Sublist.cons s.id ih
      | cons a tail =>
        rw [hfl] at hle
        have htail : tail = [] := by
          cases tail with
          | nil => rfl
          | cons b bs => simp at hle
        subst htail
        simpa using List.Sublist.cons₂ s.id ih
  exact (hstep (db.filter (fun s =>
    decide (s.competition_id = cid ∧ s.status = Status.pending)))).trans
    (List.Sublist.map Submission.id (List.filter_sublist db))

lemma snapshot_ids_nodup (db : List Submission) (assigns : List Assignment)
    (cid : Nat) (hnd : (db.map Submission.id).Nodup)
    (hand : (assigns.map Assignment.id).Nodup) :
    ((snapshotRows db assigns cid).map (fun r => r.1.id)).Nodup :=
  (snapshot_ids_sublist db assigns cid hand).nodup hnd

/-! ## Trace lemmas -/

lemma passTraceAux_frame (oracle : String → String → Nat → RunOutcome)
    (rows : List (Submission × String)) (db : List Submission) (i : Nat)
    (h : ∀ row ∈ rows, row.1.id ≠ i) :
    ∀ st ∈ passTraceAux oracle rows db, findSub st i = findSub db i := by
  induction rows generalizing db with
  | nil => intro st hst; cases hst
  | cons r rest ih =>
    intro st hst
    have hr : r.1.id ≠ i := h r (List.mem_cons_self r rest)
    have hdb1 : findSub (updateById db r.1.id setGrading) i = findSub db i :=
      findSub_updateById_ne _ _ _ _ setGrading_id (fun he => hr he.symm)
    have hdb2 : findSub (updateById (updateById db r.1.id setGrading) r.1.id
        (terminalUpdate oracle r.2 r.1.prompt_text)) i = findSub db i := by
      rw [findSub_updateById_ne _ _ _ _ (terminalUpdate_id oracle r.2 r.1.prompt_text)
        (fun he => hr he.symm)]
      exact hdb1
    rcases List.mem_cons.mp hst with rfl | hst'
    · exact hdb1
    rcases List.mem_cons.mp hst' with rfl | hst''
    · exact hdb2
    · rw [ih _ (fun row hrow => h row (List.mem_cons_of_mem r hrow)) st hst'']
      exact hdb2

lemma passTraceAux_values (oracle : String → String → Nat → RunOutcome)
    (rows : List (Submission × String)) (db : List Submission) (i : Nat)
    (s0 : Submission) (hnd : (rows.map (fun r => r.1.id)).Nodup)
    (hfind : findSub db i = some s0) :
    ∀ st ∈ passTraceAux oracle rows db,
      findSub st i = some s0 ∨ findSub st i = some (setGrading s0) ∨
      ∃ ap pt, findSub st i = some (terminalUpdate oracle ap pt (setGrading s0)) := by
  induction rows generalizing db with
  | nil => intro st hst; cases hst
  | cons r rest ih =>
    intro st hst
    simp only [List.map_cons, List.nodup_cons] at hnd
    by_cases hri : r.1.id = i
    · subst hri
      have hdb1 : findSub (updateById db r.1.id setGrading) r.1.id =
          some (setGrading s0) := by
        rw [findSub_updateById_self _ _ _ setGrading_id, hfind]; rfl
      have hdb2 : findSub (updateById (updateById db r.1.id setGrading) r.1.id
          (terminalUpdate oracle r.2 r.1.prompt_text)) r.1.id =
          some (terminalUpdate oracle r.2 r.1.prompt_text (setGrading s0)) := by
        rw [findSub_updateById_self _ _ _ (terminalUpdate_id oracle r.2 r.1.prompt_text),
          hdb1]; rfl
      rcases List.mem_cons.mp hst with rfl | hst'
      · exact Or.inr (Or.inl hdb1)
      rcases List.mem_cons.mp hst' with rfl | hst''
      · exact Or.inr (Or.inr ⟨r.2, r.1.prompt_text, hdb2⟩)
      · refine Or.inr (Or.inr ⟨r.2, r.1.prompt_text, ?_⟩)
        rw [passTraceAux_frame oracle rest _ r.1.id
          (fun row hrow he =>
            hnd.1 (he ▸ List.mem_map_of_mem (fun q => q.1.id) hrow)) st hst'']
        exact hdb2
    · have hdb1 : findSub (updateById db r.1.id setGrading) i = some s0 := by
        rw [findSub_updateById_ne _ _ _ _ setGrading_id (fun he => hri he.symm)]
        exact hfind
      have hdb2 : findSub (updateById (updateById db r.1.id setGrading) r.1.id
          (terminalUpdate oracle r.2 r.1.prompt_text)) i = some s0 := by
        rw [findSub_updateById_ne _ _ _ _
          (terminalUpdate_id oracle r.2 r.1.prompt_text) (fun he => hri he.symm)]
        exact hdb1
      rcases List.mem_cons.mp hst with rfl | hst'
      · exact Or.inl hdb1
      rcases List.mem_cons.mp hst' with rfl | hst''
      · exact Or.inl hdb2
      · exact ih _ hnd.2 hdb2 st hst''

lemma passTraceAux_length (oracle : String → String → Nat → RunOutcome)
    (rows : List (Submission × String)) (db : List Submission) :
    (passTraceAux oracle rows db).length = 2 * rows.length := by
  induction rows generalizing db with
  | nil => rfl
  | cons r rest ih =>
    simp only [passTraceAux, List.length_cons, ih, List.length_cons]
    omega

lemma passTrace_frame_all (oracle : String → String → Nat → RunOutcome)
    (rows : List (Submission × String)) (db : List Submission) (i : Nat)
    (h : ∀ row ∈ rows, row.1.id ≠ i) :
    ∀ st ∈ db :: passTraceAux oracle rows db, findSub st i = findSub db i := by
  intro st hst
  rcases List.mem_cons.mp hst with rfl | h'
  · rfl
  · exact passTraceAux_frame oracle rows db i h st h'

theorem passTraceAux_get_pos (oracle : String → String → Nat → RunOutcome) :
    ∀ (rows : List (Submission × String)) (db : List Submission) (p : ℕ)
      (hp : p < rows.length) (_ : (rows.map (fun r => r.1.id)).Nodup)
      (_ : ∀ row ∈ rows, ∃ s, findSub db row.1.id = some s)
      (hg : 2*p < (passTraceAux oracle rows db).length)
      (ht : 2*p+1 < (passTraceAux oracle rows db).length),
      statusOf ((passTraceAux oracle rows db).get ⟨2*p, hg⟩)
          ((rows.get ⟨p, hp⟩).1.id) = some Status.grading ∧
      isTerminal (statusOf ((passTraceAux oracle rows db).get ⟨2*p+1, ht⟩)
          ((rows.get ⟨p, hp⟩).1.id)) = true
  | [], _, p, hp, _, _, _, _ => absurd hp (by simp)
  | r :: rest, db, 0, hp, hnd, hex, hg, ht => by
    obtain ⟨s0, hs0⟩ := hex r (List.mem_cons_self r rest)
    have h1 : statusOf (updateById db r.1.id setGrading) r.1.id =
        some Status.grading := by
      unfold statusOf
      rw [findSub_updateById_self _ _ _ setGrading_id, hs0]
      rfl
    have h2 : isTerminal (statusOf (updateById (updateById db r.1.id setGrading)
        r.1.id (terminalUpdate oracle r.2 r.1.prompt_text)) r.1.id) = true := by
      unfold statusOf
      rw [findSub_updateById_self _ _ _ (terminalUpdate_id oracle r.2 r.1.prompt_text),
        findSub_updateById_self _ _ _ setGrading_id, hs0]
      rcases terminalUpdate_status oracle r.2 r.1.prompt_text (setGrading s0) with h | h <;>
        simp [isTerminal, h]
    exact ⟨h1, h2⟩
  | r :: rest, db, p'+1, hp, hnd, hex, hg, ht => by
    simp only [List.map_cons, List.nodup_cons] at hnd
    have hex' : ∀ row ∈ rest,
        ∃ s, findSub (updateById (updateById db r.1.id setGrading) r.1.id
          (terminalUpdate oracle r.2 r.1.prompt_text)) row.1.id = some s := by
      intro row hrow
      obtain ⟨s, hs⟩ := hex row (List.mem_cons_of_mem r hrow)
      have hne : row.1.id ≠ r.1.id := by
        intro he
        exact hnd.1 (he ▸ List.mem_map_of_mem (fun q => q.1.id) hrow)
      refine ⟨s, ?_⟩
      rw [findSub_updateById_ne _ _ _ _ (terminalUpdate_id oracle r.2 r.1.prompt_text) hne,
        findSub_updateById_ne _ _ _ _ setGrading_id hne]
      exact hs
    have hp' : p' < rest.length := by
      simp only [List.length_cons] at hp
      omega
    have hg' : 2*p' < (passTraceAux oracle rest (updateById (updateById db r.1.id
        setGrading) r.1.id (terminalUpdate oracle r.2 r.1.prompt_text))).length := by
      rw [passTraceAux_length]
      omega
    have ht' : 2*p'+1 < (passTraceAux oracle rest (updateById (updateById db r.1.id
        setGrading) r.1.id (terminalUpdate oracle r.2 r.1.prompt_text))).length := by
      rw [passTraceAux_length]
      omega
    exact passTraceAux_get_pos oracle rest _ p' hp' hnd.2 hex' hg' ht'

theorem passTrace_stable_aux (oracle : String → String → Nat → RunOutcome) :
    ∀ (rows : List (Submission × String)) (db : List Submission) (i : Nat)
      (_ : (rows.map (fun r => r.1.id)).Nodup)
      (_ : ∀ row ∈ rows, statusOf db row.1.id = some Status.pending)
      (k : ℕ) (hk : k < (db :: passTraceAux oracle rows db).length),
      isTerminal (statusOf ((db :: passTraceAux oracle rows db).get ⟨k, hk⟩) i) = true →
      ∀ st ∈ (db :: passTraceAux oracle rows db).drop k,
        statusOf st i = statusOf ((db :: passTraceAux oracle rows db).get ⟨k, hk⟩) i
  | [], db, i, _, _, k, hk => by
    have hk0 : k = 0 := by
      simp only [passTraceAux, List.length_cons, List.length_nil] at hk
      omega
    subst hk0
    intro _ st hst
    simp only [List.drop_zero] at hst
    rcases List.mem_cons.mp hst with rfl | h'
    · rfl
    · simp only [passTraceAux] at h'
      cases h'
  | r :: rest, db, i, hnd, hpend, 0, hk => by
    intro hterm st hst
    simp only [List.map_cons, List.nodup_cons] at hnd
    replace hterm : isTerminal (statusOf db i) = true := hterm
    have hno : ∀ row ∈ r :: rest, row.1.id ≠ i := by
      intro row hrow he
      rw [← he, hpend row hrow] at hterm
      simp [isTerminal] at hterm
    have hall := passTrace_frame_all oracle (r :: rest) db i hno
    have hst' : st ∈ db :: passTraceAux oracle (r :: rest) db := by
      simpa only [List.drop_zero] using hst
    show statusOf st i = statusOf db i
    unfold statusOf
    rw [hall st hst']
  | r :: rest, db, i, hnd, hpend, 1, hk => by
    intro hterm st hst
    simp only [List.map_cons, List.nodup_cons] at hnd
    replace hterm : isTerminal (statusOf (updateById db r.1.id setGrading) i) = true :=
      hterm
    have hno : ∀ row ∈ r :: rest, row.1.id ≠ i := by
      intro row hrow he
      rcases List.mem_cons.mp hrow with rfl | hrow'
      · obtain ⟨s, hs, hstat⟩ := Option.map_eq_some'.mp (hpend row hrow)
        rw [← he] at hterm
        unfold statusOf at hterm
        rw [findSub_updateById_self _ _ _ setGrading_id, hs] at hterm
        simp [isTerminal, setGrading] at hterm
      · have hne : row.1.id ≠ r.1.id := by
          intro h2
          exact hnd.1 (h2 ▸ List.mem_map_of_mem (fun q => q.1.id) hrow')
        rw [← he] at hterm
        unfold statusOf at hterm
        rw [findSub_updateById_ne _ _ _ _ setGrading_id hne] at hterm
        have := hpend row hrow
        unfold statusOf at this
        rw [this] at hterm
        simp [isTerminal] at hterm
    have hir : r.1.id ≠ i := hno r (List.mem_cons_self r rest)
    have hall := passTrace_frame_all oracle (r :: rest) db i hno
    have hdb1 : statusOf (updateById db r.1.id setGrading) i = statusOf db i := by
      unfold statusOf
      rw [findSub_updateById_ne _ _ _ _ setGrading_id (fun h => hir h.symm)]
    have hst' : st ∈ db :: passTraceAux oracle (r :: rest) db :=
      List.mem_of_mem_drop hst
    show statusOf st i = statusOf (updateById db r.1.id setGrading) i
    rw [hdb1]
    unfold statusOf
    rw [hall st hst']
  | r :: rest, db, i, hnd, hpend, k''+2, hk => by
    intro hterm st hst
    simp only [List.map_cons, List.nodup_cons] at hnd
    have hpend' : ∀ row ∈ rest,
        statusOf (updateById (updateById db r.1.id setGrading) r.1.id
          (terminalUpdate oracle r.2 r.1.prompt_text)) row.1.id =
          some Status.pending := by
      intro row hrow
      have hne : row.1.id ≠ r.1.id := by
        intro he
        exact hnd.1 (he ▸ List.mem_map_of_mem (fun q => q.1.id) hrow)
      unfold statusOf
      rw [findSub_updateById_ne _ _ _ _ (terminalUpdate_id oracle r.2 r.1.prompt_text) hne,
        findSub_updateById_ne _ _ _ _ setGrading_id hne]
      exact hpend row (List.mem_cons_of_mem r hrow)
    have hk' : k'' < ((updateById (updateById db r.1.id setGrading) r.1.id
        (terminalUpdate oracle r.2 r.1.prompt_text)) ::
        passTraceAux oracle rest (updateById (updateById db r.1.id setGrading) r.1.id
          (terminalUpdate oracle r.2 r.1.prompt_text))).length := by
      simp only [List.length_cons, passTraceAux_length] at hk ⊢
      omega
    exact passTrace_stable_aux oracle rest _ i hnd.2 hpend' k'' hk' hterm st hst

/-! ## Aggregation-bounds lemmas -/

lemma floor_le_rhe (q : ℚ) : ⌊q⌋ ≤ rhe q := by
  unfold rhe
  split_ifs <;> omega

lemma rhe_le_ceil (q : ℚ) : rhe q ≤ ⌈q⌉ := by
  have hfloor : ∀ _ : 0 < Int.fract q, ⌊q⌋ + 1 ≤ ⌈q⌉ := by
    intro hfr
    have hlt : (⌊q⌋ : ℚ) < q := by
      unfold Int.fract at hfr
      linarith
    exact Int.add_one_le_iff.mpr (Int.lt_ceil.mpr hlt)
  unfold rhe
  split_ifs with h1 h2 h3
  · exact Int.floor_le_ceil q
  · exact hfloor (lt_trans (by norm_num) h2)
  · exact Int.floor_le_ceil q
  · have heq : Int.fract q = 1/2 := le_antisymm (not_lt.mp h2) (not_lt.mp h1)
    exact hfloor (by rw [heq]; norm_num)

lemma round2_bounds (q : ℚ) (h0 : 0 ≤ q) (h100 : q ≤ 100) :
    0 ≤ round2 q ∧ round2 q ≤ 100 := by
  unfold round2
  constructor
  · apply div_nonneg _ (by norm_num)
    have h : (0:ℤ) ≤ rhe (q*100) :=
      le_trans (Int.floor_nonneg.mpr (by positivity)) (floor_le_rhe _)
    exact_mod_cast h
  · rw [div_le_iff₀ (by norm_num : (0:ℚ) < 100)]
    have h1 : rhe (q*100) ≤ ⌈q*100⌉ := rhe_le_ceil _
    have h2 : ⌈q*100⌉ ≤ (10000:ℤ) := Int.ceil_le.mpr (by push_cast; linarith)
    have h : rhe (q*100) ≤ (10000:ℤ) := le_trans h1 h2
    have : ((rhe (q*100) : ℚ)) ≤ 10000 := by exact_mod_cast h
    linarith

lemma mean_bounds (l : List ℚ) (hne : l.length ≠ 0)
    (h : ∀ x ∈ l, 0 ≤ x ∧ x ≤ 100) :
    0 ≤ l.sum / (l.length : ℚ) ∧ l.sum / (l.length : ℚ) ≤ 100 := by
  have hpos : (0:ℚ) < (l.length : ℚ) :=
    Nat.cast_pos.mpr (Nat.pos_of_ne_zero hne)
  constructor
  · exact div_nonneg (List.sum_nonneg (fun x hx => (h x hx).1)) hpos.le
  · rw [div_le_iff₀ hpos]
    have hs : l.sum ≤ l.length • (100:ℚ) :=
      List.sum_le_card_nsmul l 100 (fun x hx => (h x hx).2)
    rw [nsmul_eq_mul] at hs
    linarith

/-! ## Final-state helpers -/

lemma bg_of_no_pending (oracle : String → String → Nat → RunOutcome)
    (db : List Submission) (assigns : List Assignment) (cid : Nat)
    (h : pendingCount db cid = 0) :
    grade_all_submissions_background oracle db assigns cid = db := by
  unfold pendingCount at h
  rw [List.length_eq_zero] at h
  unfold grade_all_submissions_background snapshotRows
  rw [h]
  rfl

lemma final_row_value (oracle : String → String → Nat → RunOutcome)
    (db : List Submission) (assigns : List Assignment) (cid : Nat)
    (row : Submission × String)
    (hnd : (db.map Submission.id).Nodup)
    (hand : (assigns.map Assignment.id).Nodup)
    (hrow : row ∈ snapshotRows db assigns cid) :
    findSub (grade_all_submissions_background oracle db assigns cid) row.1.id =
      some (terminalUpdate oracle row.2 row.1.prompt_text (setGrading row.1)) := by
  have hsnap := snapshot_ids_nodup db assigns cid hnd hand
  have hmem := (mem_snapshotRows db assigns cid row hrow).1
  unfold grade_all_submissions_background
  rw [findSub_foldl_processSub oracle _ db row hsnap hrow,
    findSub_of_mem db row.1 hnd hmem]
  rfl

/-! ## Claims -/

/-- C1: for every grading attempt in which all N runs succeed with scores
s 0 .. s (N-1), `grade_submission` returns `average_score` equal to the
arithmetic mean of the scores rounded to 2 decimal places, and
`detailed_scores` equal to the list of the scores, with exactly N
elements in run order. -/
theorem c1_average_and_detailed_scores
    (oracle : String → String → Nat → RunOutcome) (tp up : String)
    (n : ℕ) (hn : 0 < n) (s : ℕ → ℚ) (fb : ℕ → String)
    (h : ∀ k < n, oracle tp up k = RunOutcome.parsed ⟨some (s k), some (fb k)⟩) :
    ∃ r, grade_submission oracle tp up (n : ℤ) = .ok r ∧
      r.average_score = round2 (((List.range n).map s).sum / (n : ℚ)) ∧
      r.detailed_scores = (List.range n).map s ∧
      r.detailed_scores.length = n := by
  have hok := grade_submission_ok oracle tp up n hn
    (fun k => ⟨some (s k), some (fb k)⟩) h
  have hmap : ((List.range n).map
      (fun k => ((⟨some (s k), some (fb k)⟩ : EvalRecord)).score.getD 0)) =
      (List.range n).map s :=
    List.map_congr_left (fun k _ => rfl)
  rw [hmap] at hok
  refine ⟨_, hok, ?_, ?_, ?_⟩
  · show (mkGradeResult ((List.range n).map s) _).average_score = _
    simp [mkGradeResult]
  · show (mkGradeResult ((List.range n).map s) _).detailed_scores = _
    simp [mkGradeResult]
  · show ((mkGradeResult ((List.range n).map s) _).detailed_scores).length = _
    simp [mkGradeResult]

/-- C1 witness: three runs with scores 80, 85, 75 produce average
round2 (240/3) = 80 and detail [80, 85, 75]. -/
theorem c1_average_and_detailed_scores_witness :
    ∃ r, grade_submission wOracle "t" "u" ((3:ℕ) : ℤ) = .ok r ∧
      r.average_score = round2 (((List.range 3).map wScores).sum / ((3:ℕ) : ℚ)) ∧
      r.detailed_scores = (List.range 3).map wScores ∧
      r.detailed_scores.length = 3 :=
  c1_average_and_detailed_scores wOracle "t" "u" 3 (by omega) wScores
    (fun _ => "좋음") (fun _ _ => rfl)

/-- C2: if run j is the first failing run (its execution call, its
evaluation call, or the parse of the evaluator response raises, with cause
C), then `grade_submission` fails with that run's cause wrapped in the
engine's run-failure message, and no aggregate result is produced: the
scores collected from earlier runs are discarded. -/
theorem c2_fail_fast_discards_partial
    (oracle : String → String → Nat → RunOutcome) (tp up : String)
    (n j : ℕ) (C : String) (hj : j < n)
    (hfail : oracle tp up j = .execFailure C ∨ oracle tp up j = .evalFailure C ∨
      oracle tp up j = .parseFailure C)
    (hok : ∀ k < j, ∃ rec, oracle tp up k = .parsed rec) :
    grade_submission oracle tp up (n : ℤ) =
      .error (.runFailure ("프롬프트 실행 실패: " ++ C)) := by
  apply grade_submission_first_fail oracle tp up n j _ hj
  · intro k hk
    obtain ⟨rec, hrec⟩ := hok k hk
    exact ⟨(rec.score.getD 0, rec.feedback.getD ""), by simp [runOne, hrec]⟩
  · rcases hfail with h | h | h <;> simp [runOne, h]

/-- C2 witness: run 1 of 3 fails with cause "rate limit exceeded" after a
successful run 0, and the whole call fails with that cause. -/
theorem c2_fail_fast_discards_partial_witness :
    grade_submission wOracleFail "t" "u" ((3:ℕ) : ℤ) =
      .error (.runFailure ("프롬프트 실행 실패: " ++ "rate limit exceeded")) :=
  c2_fail_fast_discards_partial wOracleFail "t" "u" 3 1 "rate limit exceeded"
    (by omega) (Or.inr (Or.inl rfl))
    (fun k hk => ⟨⟨some 80, some "ok"⟩, by
      have hk0 : k = 0 := by omega
      subst hk0
      rfl⟩)

/-- C10: `grade_submission` is total only for num_runs ≥ 1: with
num_runs ≤ 0 the run loop is empty and the aggregation divides by the
length of the empty score list, raising the unhandled ZeroDivisionError
rather than an aggregate result or the typed run failure; with
num_runs ≥ 1 that error never occurs. -/
theorem c10_zero_runs_division
    (oracle : String → String → Nat → RunOutcome) (tp up : String)
    (num_runs : ℤ) :
    (num_runs ≤ 0 →
      grade_submission oracle tp up num_runs = .error GradeError.zeroDivision) ∧
    (1 ≤ num_runs →
      grade_submission oracle tp up num_runs ≠ .error GradeError.zeroDivision) := by
  constructor
  · intro hle
    have hr : pyRange num_runs = [] := by
      simp [pyRange, Int.toNat_of_nonpos hle]
    unfold grade_submission
    rw [hr]
    rfl
  · intro hge hcontra
    unfold grade_submission at hcontra
    cases hc : collectRuns (oracle tp up) (pyRange num_runs) with
    | error m =>
      rw [hc] at hcontra
      simp at hcontra
    | ok pairs =>
      rw [hc] at hcontra
      replace hcontra : (if (pairs.map Prod.fst).length = 0
          then Except.error GradeError.zeroDivision
          else Except.ok (mkGradeResult (pairs.map Prod.fst) (pairs.map Prod.snd))) =
          Except.error GradeError.zeroDivision := hcontra
      have hlen : pairs.length = (pyRange num_runs).length :=
        collectRuns_length _ _ _ hc
      have hpos : (pyRange num_runs).length ≠ 0 := by
        simp only [pyRange, List.length_range]
        omega
      rw [if_neg (by simp only [List.length_map, hlen]; exact hpos)] at hcontra
      cases hcontra

/-- C10 witness: num_runs = 0 raises the division error, num_runs = 3
never does. -/
theorem c10_zero_runs_division_witness :
    grade_submission wOracle "t" "u" 0 = .error GradeError.zeroDivision ∧
    grade_submission wOracle "t" "u" 3 ≠ .error GradeError.zeroDivision :=
  ⟨(c10_zero_runs_division wOracle "t" "u" 0).1 (by omega),
   (c10_zero_runs_division wOracle "t" "u" 3).2 (by omega)⟩

/-- C4 counterexample: an evaluator response that parses as a JSON object
but is missing every required field (no score, no feedback) does NOT fail
the call: all three runs succeed with the default score 0, and a score is
produced, contradicting the claim that a response not parseable as the
required record fails with an EvaluationFailure. -/
theorem c4_malformed_counterexample :
    wOracleMissing "t" "u" 0 = RunOutcome.parsed { score := none, feedback := none } ∧
    grade_submission wOracleMissing "t" "u" 3 =
      .ok { average_score := 0, detailed_scores := [0, 0, 0],
            feedback := "평균 점수: 0.00점\n\n각 실행별 점수: 0.00점, 0.00점, 0.00점\n\n종합 피드백:\n" } :=
  ⟨rfl, by decide⟩

/-- C4 (amended): only a response that fails JSON parsing fails the run
(and hence the grading) with an EvaluationFailure carrying the cause; a
response that parses as a JSON object but lacks the score field is
accepted, the run succeeding with score defaulting to 0 (and feedback to
the empty string). -/
theorem c4_parse_failure_vs_missing_fields
    (oracle : String → String → Nat → RunOutcome) (tp up : String) (n : ℕ) :
    (∀ j C, j < n → oracle tp up j = RunOutcome.parseFailure C →
      (∀ k < j, ∃ rec, oracle tp up k = RunOutcome.parsed rec) →
      grade_submission oracle tp up (n : ℤ) =
        .error (.runFailure ("프롬프트 실행 실패: " ++ C))) ∧
    (∀ rec : ℕ → EvalRecord, 0 < n →
      (∀ k < n, oracle tp up k = RunOutcome.parsed (rec k)) →
      ∃ r, grade_submission oracle tp up (n : ℤ) = .ok r ∧
        r.detailed_scores = (List.range n).map (fun k => (rec k).score.getD 0)) := by
  constructor
  · intro j C hj hfail hok
    apply grade_submission_first_fail oracle tp up n j _ hj
    · intro k hk
      obtain ⟨rec, hrec⟩ := hok k hk
      exact ⟨(rec.score.getD 0, rec.feedback.getD ""), by simp [runOne, hrec]⟩
    · simp [runOne, hfail]
  · intro rec hn h
    exact ⟨_, grade_submission_ok oracle tp up n hn rec h, rfl⟩

/-- C4 witness: the all-fields-missing oracle gives scores [0, 0, 0]. -/
theorem c4_parse_failure_vs_missing_fields_witness :
    ∃ r, grade_submission wOracleMissing "t" "u" ((3:ℕ) : ℤ) = .ok r ∧
      r.detailed_scores = (List.range 3).map (fun _ => (0:ℚ)) :=
  (c4_parse_failure_vs_missing_fields wOracleMissing "t" "u" 3).2
    (fun _ => ⟨none, none⟩) (by omega) (fun _ _ => rfl)

/-- C5 counterexample: the engine performs no range validation, so an
evaluator response with score 150 yields detailed_scores [150, 150, 150]
and average 150, outside [0, 100], contradicting the claim that every
successful run's score lies in [0, 100]. -/
theorem c5_range_counterexample :
    grade_submission wOracleBig "t" "u" 3 =
      .ok { average_score := 150, detailed_scores := [150, 150, 150],
            feedback := "평균 점수: 150.00점\n\n각 실행별 점수: 150.00점, 150.00점, 150.00점\n\n종합 피드백:\n" } ∧
    ¬((150:ℚ) ≤ 100) :=
  ⟨by decide, by norm_num⟩

/-- C5 (amended): the engine accepts whatever numeric score the evaluator
returns without range validation; when every run's parsed score (with its
0 default) lies in [0, 100], every element of detailed_scores and the
resulting average_score also lie in [0, 100]. -/
theorem c5_scores_in_range
    (oracle : String → String → Nat → RunOutcome) (tp up : String)
    (n : ℕ) (hn : 0 < n) (rec : ℕ → EvalRecord)
    (h : ∀ k < n, oracle tp up k = RunOutcome.parsed (rec k))
    (hb : ∀ k < n, 0 ≤ (rec k).score.getD 0 ∧ (rec k).score.getD 0 ≤ 100) :
    ∃ r, grade_submission oracle tp up (n : ℤ) = .ok r ∧
      (∀ x ∈ r.detailed_scores, 0 ≤ x ∧ x ≤ 100) ∧
      0 ≤ r.average_score ∧ r.average_score ≤ 100 := by
  have hok := grade_submission_ok oracle tp up n hn rec h
  have hsc : ∀ x ∈ (List.range n).map (fun k => (rec k).score.getD 0),
      0 ≤ x ∧ x ≤ 100 := by
    intro x hx
    obtain ⟨k, hk, rfl⟩ := List.mem_map.mp hx
    exact hb k (List.mem_range.mp hk)
  have hlen : ((List.range n).map (fun k => (rec k).score.getD 0)).length ≠ 0 := by
    simp only [List.length_map, List.length_range]
    omega
  have hmean := mean_bounds _ hlen hsc
  have hr2 := round2_bounds _ hmean.1 hmean.2
  exact ⟨_, hok, hsc, hr2.1, hr2.2⟩

/-- C5 witness: scores 80, 85, 75 stay in range, as does the average. -/
theorem c5_scores_in_range_witness :
    ∃ r, grade_submission wOracle "t" "u" ((3:ℕ) : ℤ) = .ok r ∧
      (∀ x ∈ r.detailed_scores, 0 ≤ x ∧ x ≤ 100) ∧
      0 ≤ r.average_score ∧ r.average_score ≤ 100 :=
  c5_scores_in_range wOracle "t" "u" 3 (by omega)
    (fun k => ⟨some (wScores k), some "좋음"⟩) (fun _ _ => rfl)
    (fun k hk => by interval_cases k <;> exact ⟨by decide, by decide⟩)

/-- C3 counterexample: with run 2 of 3 raising an oracle failure with
cause "rate limit exceeded", the persisted feedback is NOT
"Grading failed: rate limit exceeded" — the engine first wraps the cause
in its own "프롬프트 실행 실패: " prefix — though status is error and the
score stays null as claimed. -/
theorem c3_feedback_counterexample :
    feedbackOf (grade_all_submissions_background wOracleFail wDb wAssigns 1) 1 =
      some (some "Grading failed: 프롬프트 실행 실패: rate limit exceeded") ∧
    feedbackOf (grade_all_submissions_background wOracleFail wDb wAssigns 1) 1 ≠
      some (some ("Grading failed: " ++ "rate limit exceeded")) ∧
    statusOf (grade_all_submissions_background wOracleFail wDb wAssigns 1) 1 =
      some Status.error ∧
    scoreOf (grade_all_submissions_background wOracleFail wDb wAssigns 1) 1 =
      some none :=
  ⟨by decide, by decide, by decide, by decide⟩

/-- C3 (amended): if run j is the first failing run of a snapshot
submission's grading, with oracle-failure cause C, the orchestrator
persists that submission with status error, score still null, grading
detail still unset, and feedback exactly
"Grading failed: 프롬프트 실행 실패: " followed by C (the engine's run-failure
prefix sits between the orchestrator's prefix and the cause). -/
theorem c3_error_persistence
    (oracle : String → String → Nat → RunOutcome)
    (db : List Submission) (assigns : List Assignment) (cid : Nat)
    (sub : Submission) (ap : String) (j : ℕ) (C : String)
    (hnd : (db.map Submission.id).Nodup)
    (hand : (assigns.map Assignment.id).Nodup)
    (hrow : (sub, ap) ∈ snapshotRows db assigns cid)
    (hscore : sub.score = none) (hdet : sub.grading_details = none)
    (hj : j < 3)
    (hfail : oracle ap sub.prompt_text j = .execFailure C ∨
      oracle ap sub.prompt_text j = .evalFailure C)
    (hok : ∀ k < j, ∃ rec, oracle ap sub.prompt_text k = .parsed rec) :
    statusOf (grade_all_submissions_background oracle db assigns cid) sub.id =
      some Status.error ∧
    scoreOf (grade_all_submissions_background oracle db assigns cid) sub.id =
      some none ∧
    detailsOf (grade_all_submissions_background oracle db assigns cid) sub.id =
      some none ∧
    feedbackOf (grade_all_submissions_background oracle db assigns cid) sub.id =
      some (some ("Grading failed: " ++ ("프롬프트 실행 실패: " ++ C))) := by
  have hfinal : findSub (grade_all_submissions_background oracle db assigns cid)
      sub.id = some (terminalUpdate oracle ap sub.prompt_text (setGrading sub)) :=
    final_row_value oracle db assigns cid (sub, ap) hnd hand hrow
  have hgrade : grade_submission oracle ap sub.prompt_text 3 =
      .error (.runFailure ("프롬프트 실행 실패: " ++ C)) := by
    have := grade_submission_first_fail oracle ap sub.prompt_text 3 j
      ("프롬프트 실행 실패: " ++ C) hj
      (fun k hk => by
        obtain ⟨rec, hrec⟩ := hok k hk
        exact ⟨(rec.score.getD 0, rec.feedback.getD ""), by simp [runOne, hrec]⟩)
      (by rcases hfail with h | h <;> simp [runOne, h])
    exact this
  have hterm : terminalUpdate oracle ap sub.prompt_text (setGrading sub) =
      setError ("프롬프트 실행 실패: " ++ C) (setGrading sub) := by
    unfold terminalUpdate
    rw [hgrade]
    rfl
  rw [hterm] at hfinal
  refine ⟨?_, ?_, ?_, ?_⟩
  · unfold statusOf
    rw [hfinal]
    rfl
  · unfold scoreOf
    rw [hfinal]
    simp [setError, setGrading, hscore]
  · unfold detailsOf
    rw [hfinal]
    simp [setError, setGrading, hdet]
  · unfold feedbackOf
    rw [hfinal]
    rfl

/-- C3 witness: the scenario store, with run 1 failing from the
evaluation call with cause "rate limit exceeded". -/
theorem c3_error_persistence_witness :
    statusOf (grade_all_submissions_background wOracleFail wDb wAssigns 1) wSub.id =
      some Status.error ∧
    scoreOf (grade_all_submissions_background wOracleFail wDb wAssigns 1) wSub.id =
      some none ∧
    detailsOf (grade_all_submissions_background wOracleFail wDb wAssigns 1) wSub.id =
      some none ∧
    feedbackOf (grade_all_submissions_background wOracleFail wDb wAssigns 1) wSub.id =
      some (some ("Grading failed: " ++ ("프롬프트 실행 실패: " ++ "rate limit exceeded"))) :=
  c3_error_persistence wOracleFail wDb wAssigns 1 wSub
    "Summarize this text in one sentence" 1 "rate limit exceeded"
    (by decide) (by decide) (by decide) rfl rfl (by omega)
    (Or.inr rfl)
    (fun k hk => ⟨⟨some 80, some "ok"⟩, by
      have hk0 : k = 0 := by omega
      subst hk0
      rfl⟩)

/-- C6: every submission in the pass's starting snapshot (the pending
submissions of the competition joined with their assignments) ends the
batch pass with a terminal status, completed or error, never pending or
grading — regardless of how individual gradings went. -/
theorem c6_all_snapshot_terminal
    (oracle : String → String → Nat → RunOutcome)
    (db : List Submission) (assigns : List Assignment) (cid : Nat)
    (hnd : (db.map Submission.id).Nodup)
    (hand : (assigns.map Assignment.id).Nodup) :
    ∀ row ∈ snapshotRows db assigns cid,
      isTerminal (statusOf (grade_all_submissions_background oracle db assigns cid)
        row.1.id) = true := by
  intro row hrow
  have hfinal := final_row_value oracle db assigns cid row hnd hand hrow
  unfold statusOf
  rw [hfinal]
  rcases terminalUpdate_status oracle row.2 row.1.prompt_text (setGrading row.1)
    with h | h <;> simp [isTerminal, h]

/-- C6 witness: the single snapshot submission ends terminal. -/
theorem c6_all_snapshot_terminal_witness :
    isTerminal (statusOf (grade_all_submissions_background wOracle wDb wAssigns 1)
      wSub.id) = true :=
  c6_all_snapshot_terminal wOracle wDb wAssigns 1 (by decide) (by decide)
    (wSub, "Summarize this text in one sentence") (by decide)

/-- C7: starting a grading pass for an existing competition with zero
pending submissions reports "no pending submissions", launches no pass,
and leaves the store unchanged — and even the batch pass itself would be
an identity on the store. -/
theorem c7_zero_pending_noop
    (oracle : String → String → Nat → RunOutcome)
    (comps : List Competition) (assigns : List Assignment)
    (db : List Submission) (cid : Nat)
    (hc : (comps.find? (fun comp => comp.id == cid)).isSome = true)
    (hp : pendingCount db cid = 0) :
    start_grading oracle comps assigns db cid = (StartResult.noPending, db) ∧
    grade_all_submissions_background oracle db assigns cid = db := by
  refine ⟨?_, bg_of_no_pending oracle db assigns cid hp⟩
  unfold start_grading
  obtain ⟨c, hcc⟩ := Option.isSome_iff_exists.mp hc
  rw [hcc]
  rw [if_neg (by simp), if_pos hp]

/-- C7 witness: a store whose only submission is already completed. -/
theorem c7_zero_pending_noop_witness :
    start_grading wOracle [wComp] wAssigns [wSubDone] 1 =
      (StartResult.noPending, [wSubDone]) ∧
    grade_all_submissions_background wOracle [wSubDone] wAssigns 1 = [wSubDone] :=
  c7_zero_pending_noop wOracle [wComp] wAssigns [wSubDone] 1 (by decide) (by decide)

/-- C8: per-submission status transitions during a batch pass are
strictly ordered and monotonic. For the p-th snapshot row, the committed
store state just before its grading work's terminal commit (trace index
2p+1) shows status grading — the pending→grading transition is persisted
before the grading outcome — and the next committed state (index 2p+2)
shows a terminal status. Moreover, once any submission id is observed
with a terminal status at some point of the trace, every later observable
state shows the same status — it never reverts to pending or grading. -/
theorem c8_status_monotonic
    (oracle : String → String → Nat → RunOutcome)
    (db : List Submission) (assigns : List Assignment) (cid : Nat)
    (hnd : (db.map Submission.id).Nodup)
    (hand : (assigns.map Assignment.id).Nodup) :
    (∀ (p : ℕ) (hp : p < (snapshotRows db assigns cid).length)
       (hg : 2*p+1 < (passTrace oracle db assigns cid).length)
       (ht : 2*p+2 < (passTrace oracle db assigns cid).length),
       statusOf ((passTrace oracle db assigns cid).get ⟨2*p+1, hg⟩)
         (((snapshotRows db assigns cid).get ⟨p, hp⟩).1.id) = some Status.grading ∧
       isTerminal (statusOf ((passTrace oracle db assigns cid).get ⟨2*p+2, ht⟩)
         (((snapshotRows db assigns cid).get ⟨p, hp⟩).1.id)) = true) ∧
    (∀ (i k : ℕ) (hk : k < (passTrace oracle db assigns cid).length),
       isTerminal (statusOf ((passTrace oracle db assigns cid).get ⟨k, hk⟩) i) = true →
       ∀ st ∈ (passTrace oracle db assigns cid).drop k,
         statusOf st i = statusOf ((passTrace oracle db assigns cid).get ⟨k, hk⟩) i) := by
  have hex : ∀ row ∈ snapshotRows db assigns cid,
      ∃ s, findSub db row.1.id = some s :=
    fun row hrow => ⟨row.1, findSub_of_mem db row.1 hnd
      (mem_snapshotRows db assigns cid row hrow).1⟩
  have hpend : ∀ row ∈ snapshotRows db assigns cid,
      statusOf db row.1.id = some Status.pending := by
    intro row hrow
    obtain ⟨hmem, _, hpd, _⟩ := mem_snapshotRows db assigns cid row hrow
    unfold statusOf
    rw [findSub_of_mem db row.1 hnd hmem]
    simp [hpd]
  have hsn := snapshot_ids_nodup db assigns cid hnd hand
  constructor
  · intro p hp hg ht
    have hg' : 2*p < (passTraceAux oracle (snapshotRows db assigns cid) db).length := by
      simp only [passTrace, List.length_cons] at hg
      omega
    have ht' : 2*p+1 < (passTraceAux oracle (snapshotRows db assigns cid) db).length := by
      simp only [passTrace, List.length_cons] at ht
      omega
    exact passTraceAux_get_pos oracle (snapshotRows db assigns cid) db p hp hsn hex hg' ht'
  · intro i k hk hterm st hst
    exact passTrace_stable_aux oracle (snapshotRows db assigns cid) db i hsn hpend
      k hk hterm st hst

/-- C8 witness: in the concrete one-submission pass, the state after the
first commit shows grading and the state after the second shows a
terminal status for that submission. -/
theorem c8_status_monotonic_witness :
    statusOf ((passTrace wOracle wDb wAssigns 1).get ⟨1, by decide⟩)
      (((snapshotRows wDb wAssigns 1).get ⟨0, by decide⟩).1.id) = some Status.grading ∧
    isTerminal (statusOf ((passTrace wOracle wDb wAssigns 1).get ⟨2, by decide⟩)
      (((snapshotRows wDb wAssigns 1).get ⟨0, by decide⟩).1.id)) = true :=
  (c8_status_monotonic wOracle wDb wAssigns 1 (by decide) (by decide)).1 0
    (by decide) (by decide) (by decide)

/-- C9: for a submission that enters the batch pass pending with a null
score, at every observable point of the pass the row satisfies: score is
non-null iff status is completed; a completed row has a non-null score
and non-empty feedback; an error row has a null score. -/
theorem c9_score_status_invariant
    (oracle : String → String → Nat → RunOutcome)
    (db : List Submission) (assigns : List Assignment) (cid : Nat)
    (sub : Submission)
    (hnd : (db.map Submission.id).Nodup)
    (hand : (assigns.map Assignment.id).Nodup)
    (hmem : sub ∈ db) (hpend : sub.status = Status.pending)
    (hscore : sub.score = none) :
    ∀ st ∈ passTrace oracle db assigns cid, ∀ s, findSub st sub.id = some s →
      ((s.score ≠ none ↔ s.status = Status.completed) ∧
       (s.status = Status.completed → s.score ≠ none ∧
         ∃ f, s.feedback = some f ∧ f ≠ "") ∧
       (s.status = Status.error → s.score = none)) := by
  intro st hst s hs
  have hfind : findSub db sub.id = some sub := findSub_of_mem db sub hnd hmem
  have hvals : s = sub ∨ s = setGrading sub ∨
      ∃ ap pt, s = terminalUpdate oracle ap pt (setGrading sub) := by
    rcases List.mem_cons.mp hst with rfl | hst'
    · rw [hfind] at hs
      exact Or.inl (Option.some.inj hs).symm
    · have h3 := passTraceAux_values oracle (snapshotRows db assigns cid) db sub.id
        sub (snapshot_ids_nodup db assigns cid hnd hand) hfind st hst'
      rcases h3 with h | h | ⟨ap, pt, h⟩
      · rw [h] at hs
        exact Or.inl (Option.some.inj hs).symm
      · rw [h] at hs
        exact Or.inr (Or.inl (Option.some.inj hs).symm)
      · rw [h] at hs
        exact Or.inr (Or.inr ⟨ap, pt, (Option.some.inj hs).symm⟩)
  rcases hvals with rfl | rfl | ⟨ap, pt, rfl⟩
  · refine ⟨?_, ?_, fun _ => hscore⟩
    · rw [hscore, hpend]
      simp
    · intro hcomp
      rw [hpend] at hcomp
      cases hcomp
  · refine ⟨?_, ?_, fun _ => hscore⟩
    · simp [setGrading, hscore]
    · intro hcomp
      simp [setGrading] at hcomp
  · unfold terminalUpdate
    cases hg : grade_submission oracle ap pt 3 with
    | ok r =>
      refine ⟨?_, ?_, ?_⟩
      · simp [setCompleted]
      · intro _
        exact ⟨by simp [setCompleted], r.feedback, by simp [setCompleted],
          grade_submission_ok_feedback oracle ap pt 3 r hg⟩
      · intro herr
        simp [setCompleted] at herr
    | error e =>
      refine ⟨?_, ?_, ?_⟩
      · simp [setError, setGrading, hscore]
      · intro hcomp
        simp [setError] at hcomp
      · intro _
        simp [setError, setGrading, hscore]

/-- C9 witness: the invariant instance at the pass's starting state for
the concrete pending submission. -/
theorem c9_score_status_invariant_witness :
    (wSub.score ≠ none ↔ wSub.status = Status.completed) ∧
    (wSub.status = Status.completed → wSub.score ≠ none ∧
      ∃ f, wSub.feedback = some f ∧ f ≠ "") ∧
    (wSub.status = Status.error → wSub.score = none) :=
  c9_score_status_invariant wOracle wDb wAssigns 1 wSub (by decide) (by decide)
    (by decide) rfl rfl wDb (List.mem_cons_self wDb _) wSub (by decide)
